import Mathlib

/-
Verification of the SVGCleaner core against its specification.

The development shallowly embeds the two source files of the repository:
`src/task/apply_transforms/shapes.rs` (the shape-folding pass) and
`src/main.rs` (the convergence driver and the post-run safety net).
Numbers are modelled as rationals; the tolerance-based float comparisons of
the source become exact comparisons on ℚ.  Helper functions that the pass
calls but whose source is not part of the repository snapshot
(`utils::has_valid_transform`, `utils::is_valid_attrs`,
`utils::is_valid_coords`, `utils::get_ts`, `utils::transform_coords`,
`utils::scale_coord`, `task::utils::recalc_stroke_width`, and the svgdom
`Transform` type) are modelled from the spec, refined where the
repository's own regression tests (`keep_1`, `keep_2`, `apply_4` in
`shapes.rs`) pin their observable behaviour.  The embedding reproduces
every regression test of `shapes.rs` exactly.
-/

namespace SVGCleaner

/-- Affine 2-D transform (a b c d e f), mapping (x, y) to
(a x + c y + e, b x + d y + f).  Modelled from the spec: the svgdom
`Transform` value type used by the pass (spec section 3, "Affine
Transform"). -/
structure Transform where
  a : ℚ
  b : ℚ
  c : ℚ
  d : ℚ
  e : ℚ
  f : ℚ
deriving DecidableEq, Repr

/-- Matrix product `t1 * t2` in SVG column convention: svgdom
`Transform::append`, so that applying the result to a point equals applying
`t2` first and then `t1`. -/
def Transform.append (t1 t2 : Transform) : Transform :=
  ⟨t1.a * t2.a + t1.c * t2.b,
   t1.b * t2.a + t1.d * t2.b,
   t1.a * t2.c + t1.c * t2.d,
   t1.b * t2.c + t1.d * t2.d,
   t1.a * t2.e + t1.c * t2.f + t1.e,
   t1.b * t2.e + t1.d * t2.f + t1.f⟩

/-- Application of a transform to a point. -/
def Transform.apply (t : Transform) (x y : ℚ) : ℚ × ℚ :=
  (t.a * x + t.c * y + t.e, t.b * x + t.d * y + t.f)

/-- Modelled from the spec: `get_scale(m) -> (sx, sy)`, valid only when
`b = 0 ∧ c = 0`.  svgdom computes `(sqrt (a^2 + c^2), sqrt (b^2 + d^2))`,
which under that validity precondition is `(|a|, |d|)`. -/
def Transform.get_scale (t : Transform) : ℚ × ℚ :=
  (|t.a|, |t.d|)

/-- Modelled from the spec: `has_scale(m)` — the transform has a scale
component, i.e. its scale pair differs from `(1, 1)`. -/
def Transform.has_scale (t : Transform) : Bool :=
  decide (¬(|t.a| = 1 ∧ |t.d| = 1))

/-- Modelled from the spec: transform-validity predicate of the folding
pass.  The spec requires decomposability (`b = 0 ∧ c = 0`); the
repository's regression test `keep_2` additionally shows that a
non-proportional scale such as `scale(2 3)` is rejected by the guard (the
group is kept unchanged), so the x- and y-scale magnitudes must agree. -/
def Transform.valid (t : Transform) : Bool :=
  decide (t.b = 0 ∧ t.c = 0 ∧ |t.a| = |t.d|)

/-- The recognised attribute keys used by the folding pass. -/
inductive AId where
  | x | y | width | height | rx | ry
  | cx | cy | r
  | x1 | y1 | x2 | y2
  | transform
  | strokeWidth
  | mask | clipPath | filter
deriving DecidableEq, Repr

/-- The recognised element tags used by the folding pass. -/
inductive EId where
  | svg | g | rect | circle | ellipse | line | other
deriving DecidableEq, Repr

/-- Typed attribute values: a length (number plus a flag recording whether a
physical-unit suffix is present), a transform, or a reference such as a
`mask` or `clip-path` link. -/
inductive AValue where
  | len (n : ℚ) (unit : Bool)
  | ts (t : Transform)
  | ref (s : String)
deriving DecidableEq, Repr

/-- Attribute store of a node: an association list from keys to values
(order-irrelevant mapping in the spec's data model). -/
abbrev Attrs := List (AId × AValue)

/-- Attribute lookup. -/
def getA : Attrs → AId → Option AValue
  | [], _ => none
  | (k, v) :: rest, aid => if k = aid then some v else getA rest aid

/-- Attribute insertion or in-place replacement. -/
def setA : Attrs → AId → AValue → Attrs
  | [], aid, v => [(aid, v)]
  | (k, w) :: rest, aid, v =>
      if k = aid then (k, v) :: rest else (k, w) :: setA rest aid v

/-- Attribute removal. -/
def removeA : Attrs → AId → Attrs
  | [], _ => []
  | (k, v) :: rest, aid =>
      if k = aid then removeA rest aid else (k, v) :: removeA rest aid

/-- A document node: element tag, attribute store, ordered children. -/
inductive Node where
  | mk (tag : EId) (attrs : Attrs) (children : List Node)

/-- Tag of a node. -/
def Node.tag : Node → EId
  | .mk t _ _ => t

/-- Attribute store of a node. -/
def Node.attrs : Node → Attrs
  | .mk _ a _ => a

/-- Children of a node. -/
def Node.children : Node → List Node
  | .mk _ _ cs => cs

/-- Modelled from the spec: `utils::get_ts` reads the node's transform
attribute as a `Transform` value (identity if, impossibly for typed
documents, the attribute is absent or not a transform). -/
def get_ts (attrs : Attrs) : Transform :=
  match getA attrs .transform with
  | some (.ts t) => t
  | _ => ⟨1, 0, 0, 1, 0, 0⟩

/-- Modelled from the spec: `utils::has_valid_transform` — the
transform-validity guard; a node without a transform attribute passes
trivially. -/
def has_valid_transform (attrs : Attrs) : Bool :=
  match getA attrs .transform with
  | some (.ts t) => t.valid
  | _ => true

/-- Modelled from the spec: `utils::is_valid_attrs` — the
attribute-validity guard.  The spec vetoes transform-order-sensitive
attributes; the repository's regression test `keep_2` shows that the mere
presence of a `mask` reference vetoes the fold (even under a uniform
scale), so clip-path/mask/filter references disqualify unconditionally. -/
def is_valid_attrs (attrs : Attrs) : Bool :=
  (getA attrs .clipPath).isNone
    && (getA attrs .mask).isNone
    && (getA attrs .filter).isNone

/-- The geometric attributes the fold touches, per shape kind. -/
def coord_ids : EId → List AId
  | .rect => [.x, .y, .width, .height, .rx, .ry]
  | .circle => [.cx, .cy, .r]
  | .ellipse => [.cx, .cy, .rx, .ry]
  | .line => [.x1, .y1, .x2, .y2]
  | _ => []

/-- Modelled from the spec: `utils::is_valid_coords` — the
coordinate-validity guard: every geometric attribute touched by the fold
must, when present, be a unit-less number (regression test `keep_1`
rejects a rect whose `x` carries a physical unit). -/
def is_valid_coords (tag : EId) (attrs : Attrs) : Bool :=
  (coord_ids tag).all fun aid =>
    match getA attrs aid with
    | some (.len _ unit) => !unit
    | _ => true

/-- Modelled from the spec: `utils::transform_coords` — applies the
transform to the coordinate pair `(ax, ay)`, reading absent coordinates as
the default 0 and writing both back as unit-less numbers. -/
def transform_coords (attrs : Attrs) (ax ay : AId) (t : Transform) : Attrs :=
  let x : ℚ := match getA attrs ax with | some (.len n _) => n | _ => 0
  let y : ℚ := match getA attrs ay with | some (.len n _) => n | _ => 0
  let p := t.apply x y
  setA (setA attrs ax (.len p.1 false)) ay (.len p.2 false)

/-- Modelled from the spec: `utils::scale_coord` — multiplies the numeric
value of the attribute by the scale factor when the attribute is present,
and does nothing otherwise. -/
def scale_coord (attrs : Attrs) (aid : AId) (s : ℚ) : Attrs :=
  match getA attrs aid with
  | some (.len n u) => setA attrs aid (.len (n * s) u)
  | _ => attrs

/-- Modelled from the spec: `task::utils::recalc_stroke_width` — the
effective stroke width is the node's own `stroke-width` if present, else
the nearest ancestor's (`inh`), else the default 1; the node's
`stroke-width` is set to the effective value times the scale factor
(regression test `apply_4` shows the ancestor value is used). -/
def recalc_stroke_width (inh : Option ℚ) (sx : ℚ) (attrs : Attrs) : Attrs :=
  let base : ℚ × Bool :=
    match getA attrs .strokeWidth with
    | some (.len w u) => (w, u)
    | _ =>
      match inh with
      | some w => (w, false)
      | none => (1, false)
  setA attrs .strokeWidth (.len (base.1 * sx) base.2)

/-- The shared per-shape wrapper `process` of `shapes.rs`: check the three
validity guards (silent no-op on failure), run the shape-specific
geometry rewrite, remove the transform attribute, and recompute
`stroke-width` if the transform had a scale part. -/
def process (func : Attrs → Transform → Attrs) (inh : Option ℚ)
    (tag : EId) (attrs : Attrs) : Attrs :=
  if !has_valid_transform attrs || !is_valid_attrs attrs
      || !is_valid_coords tag attrs then
    attrs
  else
    let t := get_ts attrs
    let a2 := removeA (func attrs t) .transform
    if t.has_scale then recalc_stroke_width inh (t.get_scale.1) a2 else a2

/-- Geometry rewrite of `process_rect`: translate `x`,`y`; under scale,
multiply `width`, `height`, `rx`, `ry` by the x-scale factor. -/
def rect_func (attrs : Attrs) (t : Transform) : Attrs :=
  let a1 := transform_coords attrs .x .y t
  if t.has_scale then
    let sx := t.get_scale.1
    scale_coord (scale_coord (scale_coord (scale_coord a1 .width sx)
      .height sx) .rx sx) .ry sx
  else a1

/-- Geometry rewrite of `process_circle`: translate `cx`,`cy`; under
scale, multiply `r` by the x-scale factor. -/
def circle_func (attrs : Attrs) (t : Transform) : Attrs :=
  let a1 := transform_coords attrs .cx .cy t
  if t.has_scale then scale_coord a1 .r t.get_scale.1 else a1

/-- Geometry rewrite of `process_ellipse`: translate `cx`,`cy`; under
scale, multiply `rx`, `ry` by the x-scale factor. -/
def ellipse_func (attrs : Attrs) (t : Transform) : Attrs :=
  let a1 := transform_coords attrs .cx .cy t
  if t.has_scale then
    scale_coord (scale_coord a1 .rx t.get_scale.1) .ry t.get_scale.1
  else a1

/-- Geometry rewrite of `process_line`: translate both endpoints. -/
def line_func (attrs : Attrs) (t : Transform) : Attrs :=
  transform_coords (transform_coords attrs .x1 .y1 t) .x2 .y2 t

/-- Stage B per-node step: the second loop of `apply_transform_to_shapes`
dispatches on the tag of every node that carries a transform attribute
(`process_rect` / `process_circle` / `process_ellipse` / `process_line`),
and leaves every other node alone. -/
def process_shape (inh : Option ℚ) (tag : EId) (attrs : Attrs) : Attrs :=
  if (getA attrs .transform).isSome then
    match tag with
    | .rect => process rect_func inh .rect attrs
    | .circle => process circle_func inh .circle attrs
    | .ellipse => process ellipse_func inh .ellipse attrs
    | .line => process line_func inh .line attrs
    | _ => attrs
  else attrs

/-- A direct child qualifies for group push-down: it is one of the four
foldable shape kinds and passes transform-, attribute- and
coordinate-validity (the `all` closure in `apply_transform_to_shapes`). -/
def child_ok (n : Node) : Bool :=
  (match n.tag with
   | .rect | .circle | .ellipse | .line => true
   | _ => false)
    && has_valid_transform n.attrs
    && is_valid_attrs n.attrs
    && is_valid_coords n.tag n.attrs

/-- Push the group transform onto one child: compose with the child's own
transform when present (group outer, child inner), else assign directly. -/
def push_ts (t : Transform) (c : Node) : Node :=
  if (getA c.attrs .transform).isSome then
    .mk c.tag (setA c.attrs .transform (.ts (t.append (get_ts c.attrs)))) c.children
  else
    .mk c.tag (setA c.attrs .transform (.ts t)) c.children

/-- Stage A per-group step (the body of the first loop of
`apply_transform_to_shapes`): for a group carrying a transform that passes
the transform- and attribute-validity guards and whose children all
qualify, push the transform onto every child and remove it from the
group; otherwise leave the node untouched. -/
def group_step (n : Node) : Node :=
  if n.tag = .g ∧ (getA n.attrs .transform).isSome then
    if has_valid_transform n.attrs && is_valid_attrs n.attrs then
      if n.children.all child_ok then
        .mk n.tag (removeA n.attrs .transform)
          (n.children.map (push_ts (get_ts n.attrs)))
      else n
    else n
  else n

mutual

/-- Stage A over the whole tree: apply the group step at every node.
The per-group steps are independent (a group whose children are all
foldable shapes contains no group child), so the traversal order of the
source's pre-order iterator does not matter. -/
def stage_a : Node → Node
  | .mk t a cs => group_step (.mk t a (stage_a_list cs))

/-- Stage A over a list of sibling nodes. -/
def stage_a_list : List Node → List Node
  | [] => []
  | c :: cs => stage_a c :: stage_a_list cs

end

/-- Effective own stroke-width of an attribute store, if any. -/
def stroke_width_of (attrs : Attrs) : Option ℚ :=
  match getA attrs .strokeWidth with
  | some (.len w _) => some w
  | _ => none

mutual

/-- Stage B over the whole tree (pre-order, matching the source's
iterator): process the node's own attributes, then the children with the
inherited stroke-width updated to this node's processed value. -/
def stage_b (inh : Option ℚ) : Node → Node
  | .mk t a cs =>
      let a2 := process_shape inh t a
      let inh2 := match stroke_width_of a2 with
        | some w => some w
        | none => inh
      .mk t a2 (stage_b_list inh2 cs)

/-- Stage B over a list of sibling nodes. -/
def stage_b_list (inh : Option ℚ) : List Node → List Node
  | [] => []
  | c :: cs => stage_b inh c :: stage_b_list inh cs

end

/-- The whole folding pass `apply_transform_to_shapes`: group push-down
(stage A) followed by shape-local folding (stage B). -/
def apply_transform_to_shapes (doc : Node) : Node :=
  stage_b none (stage_a doc)

/-- Input or output endpoint of a run (`InputFrom` / `OutputTo` in
`main.rs`): the standard stream or a named file. -/
inductive StreamSpec where
  | std
  | file (path : String)
deriving DecidableEq, Repr

/-- The `on_err` closure of `main.rs`, reduced to its observable effect:
when both endpoints are concrete files, the copy-on-error option is set
and the two paths differ, the destination path that receives a verbatim
copy of the original input; otherwise no copy. -/
def on_err_copy (input output : StreamSpec) (copyOnError : Bool) : Option String :=
  match input, output with
  | .file inf, .file outf =>
      if copyOnError ∧ inf ≠ outf then some outf else none
  | _, _ => none

/-- Observable end of a run: either the cleaning is rejected (a policy
error is reported and at most a copy of the original bytes reaches a
destination path) or a byte buffer is saved to the output endpoint. -/
inductive Endgame where
  | rejected (copy : Option (String × List Nat))
  | saved (dest : StreamSpec) (bytes : List Nat)
deriving DecidableEq, Repr

/-- Post-loop logic of `main.rs`: unless the allow-bigger option is set, a
cleaned buffer strictly longer than the original input is rejected (with
the `on_err` recovery); otherwise the trailing newline is appended when
configured and the buffer is saved. -/
def finalize (allowBigger appendNewline copyOnError : Bool)
    (input output : StreamSpec) (raw buf : List Nat) : Endgame :=
  if !allowBigger && decide (raw.length < buf.length) then
    .rejected ((on_err_copy input output copyOnError).map fun p => (p, raw))
  else
    .saved output (if appendNewline then buf ++ [10] else buf)

/-- The multipass loop body of `main.rs`, fuel-indexed.  One iteration
parses the buffer, cleans and reserializes it (the collaborator function
`step`), stops when the new length equals `prev` (the previous cycle's
length, 0 before the first cycle, exactly as `prev_size` in the source),
and otherwise repeats.  Returns the number of cycles run and the final
buffer, or `none` if `fuel` iterations did not reach the stop
condition. -/
def mp_go (step : List Nat → List Nat) :
    Nat → List Nat → Nat → Nat → Option (Nat × List Nat)
  | 0, _, _, _ => none
  | fuel + 1, buf, prev, cnt =>
      let b := step buf
      if b.length = prev then some (cnt + 1, b)
      else mp_go step fuel b b.length (cnt + 1)

/-- The multipass loop of `main.rs` on the raw input bytes. -/
def multipass (step : List Nat → List Nat) (raw : List Nat) (fuel : Nat) :
    Option (Nat × List Nat) :=
  mp_go step fuel raw 0 0

/-- Attribute store of the plain rect used by the regression tests. -/
def rect10_attrs : Attrs :=
  [(.height, .len 10 false), (.width, .len 10 false),
   (.x, .len 10 false), (.y, .len 10 false)]

/-- Plain rect node used by the regression tests. -/
def rect10 : Node := .mk .rect rect10_attrs []

/-- First group of the `keep_2` regression test: a non-uniform
`scale(2 3)` wrapping one plain rect. -/
def g_scale23 : Node :=
  .mk .g [(.transform, .ts ⟨2, 0, 0, 3, 0, 0⟩)] [rect10]

/-- Second group of the `keep_2` regression test: a `mask` reference plus
a uniform `scale(2)` wrapping one plain rect. -/
def g_mask : Node :=
  .mk .g [(.mask, .ref "m"), (.transform, .ts ⟨2, 0, 0, 2, 0, 0⟩)] [rect10]

/-- Group of the `apply_g_1` regression test: `translate(10 20) scale(2)`
wrapping a rect that carries its own `scale(2)` and a plain rect. -/
def g_push : Node :=
  .mk .g [(.transform, .ts ⟨2, 0, 0, 2, 10, 20⟩)]
    [.mk .rect (rect10_attrs ++ [(.transform, .ts ⟨2, 0, 0, 2, 0, 0⟩)]) [],
     rect10]

/-- Rect attributes of the `keep_1` regression test: the `x` coordinate
carries a physical unit, so coordinate validity fails. -/
def keep1_attrs : Attrs :=
  [(.height, .len 10 false), (.transform, .ts ⟨2, 0, 0, 2, 0, 0⟩),
   (.width, .len 10 false), (.x, .len 10 true), (.y, .len 10 false)]

/-- Rect attributes with an explicit stroke-width 3 and a uniform
`scale(2)` transform. -/
def sw_attrs : Attrs :=
  [(.height, .len 10 false), (.strokeWidth, .len 3 false),
   (.width, .len 10 false), (.x, .len 10 false), (.y, .len 10 false),
   (.transform, .ts ⟨2, 0, 0, 2, 0, 0⟩)]

@[simp]
theorem Node.tag_mk (t : EId) (a : Attrs) (cs : List Node) :
    (Node.mk t a cs).tag = t := rfl

@[simp]
theorem Node.attrs_mk (t : EId) (a : Attrs) (cs : List Node) :
    (Node.mk t a cs).attrs = a := rfl

@[simp]
theorem Node.children_mk (t : EId) (a : Attrs) (cs : List Node) :
    (Node.mk t a cs).children = cs := rfl

@[simp]
theorem getA_nil (aid : AId) : getA [] aid = none := rfl

@[simp]
theorem getA_cons (k : AId) (v : AValue) (rest : Attrs) (aid : AId) :
    getA ((k, v) :: rest) aid = if k = aid then some v else getA rest aid := rfl

theorem getA_setA_eq (l : Attrs) (aid : AId) (v : AValue) :
    getA (setA l aid v) aid = some v := by
  induction l with
  | nil => simp [setA]
  | cons p rest ih =>
      obtain ⟨k0, w0⟩ := p
      by_cases hk : k0 = aid
      · simp [setA, hk]
      · simp [setA, hk, ih]

theorem getA_setA_ne (l : Attrs) (k aid : AId) (v : AValue) (h : k ≠ aid) :
    getA (setA l k v) aid = getA l aid := by
  induction l with
  | nil => simp [setA, getA, h]
  | cons p rest ih =>
      obtain ⟨k0, w0⟩ := p
      by_cases hk : k0 = k
      · subst hk
        simp [setA, getA, h]
      · simp only [setA, if_neg hk, getA_cons]
        by_cases ha : k0 = aid
        · simp [ha]
        · simp [ha, ih]

theorem getA_removeA_eq (l : Attrs) (aid : AId) :
    getA (removeA l aid) aid = none := by
  induction l with
  | nil => simp [removeA]
  | cons p rest ih =>
      obtain ⟨k0, w0⟩ := p
      by_cases hk : k0 = aid
      · simp [removeA, hk, ih]
      · simp [removeA, hk, ih]

theorem getA_removeA_ne (l : Attrs) (k aid : AId) (h : k ≠ aid) :
    getA (removeA l k) aid = getA l aid := by
  induction l with
  | nil => simp [removeA]
  | cons p rest ih =>
      obtain ⟨k0, w0⟩ := p
      by_cases hk : k0 = k
      · subst hk
        simp [removeA, h, ih]
      · simp only [removeA, if_neg hk, getA_cons]
        by_cases ha : k0 = aid
        · simp [ha]
        · simp [ha, ih]

/-- C1: for a group node carrying a transform, the push-down step removes
the group's transform attribute if and only if the group passes the
transform- and attribute-validity guards and every direct child is a
foldable shape that individually passes transform-, attribute- and
coordinate-validity; when that condition fails, the whole node (the
group's transform attribute and every child attribute) is left completely
unmodified. -/
theorem C1_group_pushdown_all_or_nothing (n : Node)
    (hg : n.tag = EId.g) (ht : (getA n.attrs AId.transform).isSome = true) :
    (getA (group_step n).attrs AId.transform = none ↔
      (has_valid_transform n.attrs && is_valid_attrs n.attrs
        && n.children.all child_ok) = true)
    ∧ ((has_valid_transform n.attrs && is_valid_attrs n.attrs
        && n.children.all child_ok) = false → group_step n = n) := by
  have hp : n.tag = EId.g ∧ (getA n.attrs AId.transform).isSome := ⟨hg, ht⟩
  have hne : getA n.attrs AId.transform ≠ none := by
    rw [← Option.isSome_iff_ne_none]
    exact ht
  cases h1 : (has_valid_transform n.attrs && is_valid_attrs n.attrs) with
  | false =>
      have hid : group_step n = n := by
        unfold group_step
        rw [if_pos hp, h1]
        simp
      refine ⟨?_, fun _ => hid⟩
      rw [hid]
      simp [h1, hne]
  | true =>
      cases h2 : n.children.all child_ok with
      | false =>
          have hid : group_step n = n := by
            unfold group_step
            rw [if_pos hp, h1, h2]
            simp
          refine ⟨?_, fun _ => hid⟩
          rw [hid]
          simp [h1, h2, hne]
      | true =>
          have hstep : group_step n =
              Node.mk n.tag (removeA n.attrs AId.transform)
                (n.children.map (push_ts (get_ts n.attrs))) := by
            unfold group_step
            rw [if_pos hp, h1, h2]
            simp
          refine ⟨?_, ?_⟩
          · rw [hstep]
            simp [getA_removeA_eq, h1, h2]
          · intro hcontra
            simp [h1, h2] at hcontra

/-- Witness for C1 at the group of the `apply_g_1` regression test. -/
theorem C1_witness : getA (group_step g_push).attrs AId.transform = none := by
  have h := C1_group_pushdown_all_or_nothing g_push rfl (by decide)
  exact h.1.mpr (by decide)

/-- C5: in a successful group push-down, a child that already carries a
transform receives the composition with the group transform as the outer
factor and the child's as the inner factor (so applying the composite to a
point equals applying the child's transform first and then the group's), a
child without a transform receives the group transform unchanged, and the
group's transform attribute is removed. -/
theorem C5_pushdown_composition (n : Node) (T : Transform)
    (hg : n.tag = EId.g) (ht : getA n.attrs AId.transform = some (.ts T))
    (h1 : (has_valid_transform n.attrs && is_valid_attrs n.attrs) = true)
    (h2 : n.children.all child_ok = true) :
    group_step n = Node.mk n.tag (removeA n.attrs AId.transform)
      (n.children.map (push_ts T))
    ∧ (∀ c : Node, getA c.attrs AId.transform = none →
        push_ts T c = Node.mk c.tag (setA c.attrs AId.transform (.ts T)) c.children)
    ∧ (∀ (c : Node) (tc : Transform),
        getA c.attrs AId.transform = some (.ts tc) →
        push_ts T c =
          Node.mk c.tag (setA c.attrs AId.transform (.ts (T.append tc))) c.children)
    ∧ (∀ (t1 t2 : Transform) (x y : ℚ),
        (t1.append t2).apply x y =
          t1.apply ((t2.apply x y).1) ((t2.apply x y).2)) := by
  refine ⟨?_, ?_, ?_, ?_⟩
  · have hp : n.tag = EId.g ∧ (getA n.attrs AId.transform).isSome :=
      ⟨hg, by rw [ht]; rfl⟩
    have hts : get_ts n.attrs = T := by
      unfold get_ts
      rw [ht]
    unfold group_step
    rw [if_pos hp, h1, h2, hts]
    simp
  · intro c hc
    unfold push_ts
    rw [hc]
    simp
  · intro c tc hc
    have hts : get_ts c.attrs = tc := by
      unfold get_ts
      rw [hc]
    unfold push_ts
    rw [hc, hts]
    simp
  · intro t1 t2 x y
    unfold Transform.append Transform.apply
    rw [Prod.mk.injEq]
    constructor <;> (simp only []; ring)

/-- Witness for C5 at the group of the `apply_g_1` regression test. -/
theorem C5_witness :
    group_step g_push = Node.mk g_push.tag (removeA g_push.attrs AId.transform)
      (g_push.children.map (push_ts ⟨2, 0, 0, 2, 10, 20⟩)) := by
  have h := C5_pushdown_composition g_push ⟨2, 0, 0, 2, 10, 20⟩ rfl (by decide)
    (by decide) (by decide)
  exact h.1

theorem process_noop (func : Attrs → Transform → Attrs) (inh : Option ℚ)
    (tag : EId) (attrs : Attrs)
    (h : has_valid_transform attrs = false ∨ is_valid_attrs attrs = false
      ∨ is_valid_coords tag attrs = false) :
    process func inh tag attrs = attrs := by
  have hc : (!has_valid_transform attrs || !is_valid_attrs attrs
      || !is_valid_coords tag attrs) = true := by
    rcases h with h | h | h <;> simp [h]
  unfold process
  simp [hc]

theorem process_shape_noop (inh : Option ℚ) (tag : EId) (attrs : Attrs)
    (h : has_valid_transform attrs = false ∨ is_valid_attrs attrs = false
      ∨ is_valid_coords tag attrs = false) :
    process_shape inh tag attrs = attrs := by
  unfold process_shape
  cases htr : (getA attrs AId.transform).isSome with
  | false => simp
  | true =>
      simp only [htr, if_true]
      cases tag with
      | rect => exact process_noop _ _ _ _ h
      | circle => exact process_noop _ _ _ _ h
      | ellipse => exact process_noop _ _ _ _ h
      | line => exact process_noop _ _ _ _ h
      | svg => rfl
      | g => rfl
      | other => rfl

/-- C8: in the shape-local folding stage, a node failing any one of the
three validity guards is a silent per-node no-op: its attribute store is
returned completely unchanged.  The embedded pass is a total function
into trees (`process_shape`, `apply_transform_to_shapes`), matching the
source's lack of any error return. -/
theorem C8_guard_failure_noop (inh : Option ℚ) (tag : EId) (attrs : Attrs)
    (h : has_valid_transform attrs = false ∨ is_valid_attrs attrs = false
      ∨ is_valid_coords tag attrs = false) :
    process_shape inh tag attrs = attrs :=
  process_shape_noop inh tag attrs h

/-- Witness for C8 at the rect of the `keep_1` regression test, whose `x`
coordinate carries a physical unit. -/
theorem C8_witness : process_shape none EId.rect keep1_attrs = keep1_attrs :=
  C8_guard_failure_noop none EId.rect keep1_attrs (Or.inr (Or.inr (by decide)))

theorem getA_transform_coords_ne (attrs : Attrs) (ax ay aid : AId)
    (t : Transform) (hx : ax ≠ aid) (hy : ay ≠ aid) :
    getA (transform_coords attrs ax ay t) aid = getA attrs aid := by
  unfold transform_coords
  rw [getA_setA_ne _ _ _ _ hy, getA_setA_ne _ _ _ _ hx]

theorem getA_scale_coord_ne (attrs : Attrs) (k aid : AId) (s : ℚ)
    (h : k ≠ aid) :
    getA (scale_coord attrs k s) aid = getA attrs aid := by
  unfold scale_coord
  cases hv : getA attrs k with
  | none => simp [hv]
  | some v =>
      cases v with
      | len n u => simp [hv, getA_setA_ne _ _ _ _ h]
      | ts t0 => simp [hv]
      | ref s0 => simp [hv]

theorem rect_func_sw (attrs : Attrs) (t : Transform) :
    getA (rect_func attrs t) AId.strokeWidth = getA attrs AId.strokeWidth := by
  unfold rect_func
  cases hs : t.has_scale with
  | false =>
      simp only [hs, Bool.false_eq_true, if_false]
      exact getA_transform_coords_ne _ _ _ _ _ (by decide) (by decide)
  | true =>
      simp only [hs, if_true]
      rw [getA_scale_coord_ne _ _ _ _ (by decide),
        getA_scale_coord_ne _ _ _ _ (by decide),
        getA_scale_coord_ne _ _ _ _ (by decide),
        getA_scale_coord_ne _ _ _ _ (by decide),
        getA_transform_coords_ne _ _ _ _ _ (by decide) (by decide)]

theorem circle_func_sw (attrs : Attrs) (t : Transform) :
    getA (circle_func attrs t) AId.strokeWidth = getA attrs AId.strokeWidth := by
  unfold circle_func
  cases hs : t.has_scale with
  | false =>
      simp only [hs, Bool.false_eq_true, if_false]
      exact getA_transform_coords_ne _ _ _ _ _ (by decide) (by decide)
  | true =>
      simp only [hs, if_true]
      rw [getA_scale_coord_ne _ _ _ _ (by decide),
        getA_transform_coords_ne _ _ _ _ _ (by decide) (by decide)]

theorem ellipse_func_sw (attrs : Attrs) (t : Transform) :
    getA (ellipse_func attrs t) AId.strokeWidth = getA attrs AId.strokeWidth := by
  unfold ellipse_func
  cases hs : t.has_scale with
  | false =>
      simp only [hs, Bool.false_eq_true, if_false]
      exact getA_transform_coords_ne _ _ _ _ _ (by decide) (by decide)
  | true =>
      simp only [hs, if_true]
      rw [getA_scale_coord_ne _ _ _ _ (by decide),
        getA_scale_coord_ne _ _ _ _ (by decide),
        getA_transform_coords_ne _ _ _ _ _ (by decide) (by decide)]

theorem line_func_sw (attrs : Attrs) (t : Transform) :
    getA (line_func attrs t) AId.strokeWidth = getA attrs AId.strokeWidth := by
  unfold line_func
  rw [getA_transform_coords_ne _ _ _ _ _ (by decide) (by decide),
    getA_transform_coords_ne _ _ _ _ _ (by decide) (by decide)]

theorem process_sw (func : Attrs → Transform → Attrs) (inh : Option ℚ)
    (tag : EId) (attrs : Attrs) (T : Transform)
    (hfunc : ∀ t, getA (func attrs t) AId.strokeWidth = getA attrs AId.strokeWidth)
    (ht : getA attrs AId.transform = some (.ts T))
    (hguards : (has_valid_transform attrs && is_valid_attrs attrs
      && is_valid_coords tag attrs) = true) :
    (∀ (w : ℚ) (u : Bool), T.has_scale = true →
        getA attrs AId.strokeWidth = some (.len w u) →
        getA (process func inh tag attrs) AId.strokeWidth
          = some (.len (w * T.get_scale.1) u))
    ∧ (T.has_scale = false → getA attrs AId.strokeWidth = none →
        getA (process func inh tag attrs) AId.strokeWidth = none) := by
  simp only [Bool.and_eq_true] at hguards
  obtain ⟨⟨ha, hb⟩, hc⟩ := hguards
  have hcond : (!has_valid_transform attrs || !is_valid_attrs attrs
      || !is_valid_coords tag attrs) = false := by
    simp [ha, hb, hc]
  have hts : get_ts attrs = T := by
    unfold get_ts
    rw [ht]
  have hsw : getA (removeA (func attrs (get_ts attrs)) AId.transform)
      AId.strokeWidth = getA attrs AId.strokeWidth := by
    rw [getA_removeA_ne _ _ _ (by decide), hfunc]
  constructor
  · intro w u hscale hswa
    unfold process
    simp only [hcond, Bool.false_eq_true, if_false, hts, hscale, if_true]
    unfold recalc_stroke_width
    rw [hts] at hsw
    rw [hsw, hswa]
    simp [getA_setA_eq]
  · intro hscale hswa
    unfold process
    simp only [hcond, Bool.false_eq_true, if_false, hts, hscale]
    rw [hts] at hsw
    rw [hsw, hswa]

/-- C2: for a foldable shape whose transform passes all three guards and
has a scale component, folding rewrites an explicitly present
stroke-width `w` to `w * sx` where `sx` is the x-scale factor of the
transform; and when the node has no stroke-width of its own and the
transform has no scale part, no stroke-width attribute is created. -/
theorem C2_stroke_width_scaling (inh : Option ℚ) (tag : EId) (attrs : Attrs)
    (T : Transform)
    (htag : tag = EId.rect ∨ tag = EId.circle ∨ tag = EId.ellipse
      ∨ tag = EId.line)
    (ht : getA attrs AId.transform = some (.ts T))
    (hguards : (has_valid_transform attrs && is_valid_attrs attrs
      && is_valid_coords tag attrs) = true) :
    (∀ (w : ℚ) (u : Bool), T.has_scale = true →
        getA attrs AId.strokeWidth = some (.len w u) →
        getA (process_shape inh tag attrs) AId.strokeWidth
          = some (.len (w * T.get_scale.1) u))
    ∧ (T.has_scale = false → getA attrs AId.strokeWidth = none →
        getA (process_shape inh tag attrs) AId.strokeWidth = none) := by
  have hsome : (getA attrs AId.transform).isSome = true := by
    rw [ht]; rfl
  rcases htag with h | h | h | h <;> subst h <;>
    simp only [process_shape, hsome, if_true]
  · exact process_sw rect_func inh EId.rect attrs T (rect_func_sw attrs)
      ht hguards
  · exact process_sw circle_func inh EId.circle attrs T (circle_func_sw attrs)
      ht hguards
  · exact process_sw ellipse_func inh EId.ellipse attrs T
      (ellipse_func_sw attrs) ht hguards
  · exact process_sw line_func inh EId.line attrs T (line_func_sw attrs)
      ht hguards

/-- Witness for C2 at a rect with stroke-width 3 and a uniform scale(2)
transform: the folded stroke-width is 6. -/
theorem C2_witness :
    getA (process_shape none EId.rect sw_attrs) AId.strokeWidth
      = some (.len 6 false) := by
  have h := C2_stroke_width_scaling none EId.rect sw_attrs ⟨2, 0, 0, 2, 0, 0⟩
    (Or.inl rfl) (by decide) (by decide)
  have h2 := h.1 3 false (by decide) (by decide)
  rw [h2]
  norm_num [Transform.get_scale]

theorem is_valid_attrs_of_mask (attrs : Attrs)
    (hm : (getA attrs AId.mask).isSome = true) :
    is_valid_attrs attrs = false := by
  unfold is_valid_attrs
  cases hmv : getA attrs AId.mask with
  | none => rw [hmv] at hm; simp at hm
  | some v => simp [hmv]

theorem group_step_invalid_attrs (m : Node)
    (hva : is_valid_attrs m.attrs = false) :
    group_step m = m := by
  unfold group_step
  by_cases hp : m.tag = EId.g ∧ (getA m.attrs AId.transform).isSome
  · rw [if_pos hp]
    have hand : (has_valid_transform m.attrs && is_valid_attrs m.attrs) = false := by
      simp [hva]
    rw [hand]
    simp
  · rw [if_neg hp]

/-- C7: a node carrying a `mask` attribute is never touched by the folding
pass: the group push-down step leaves it unchanged, the shape-local step
leaves its attributes unchanged, and the whole pass leaves its attribute
store — its transform attribute in particular — exactly as it was. -/
theorem C7_mask_vetoes_fold (n : Node) (inh : Option ℚ)
    (hm : (getA n.attrs AId.mask).isSome = true) :
    group_step n = n
    ∧ process_shape inh n.tag n.attrs = n.attrs
    ∧ (apply_transform_to_shapes n).attrs = n.attrs
    ∧ getA ((apply_transform_to_shapes n).attrs) AId.transform
        = getA n.attrs AId.transform := by
  have hva := is_valid_attrs_of_mask n.attrs hm
  refine ⟨group_step_invalid_attrs n hva,
    process_shape_noop inh n.tag n.attrs (Or.inr (Or.inl hva)), ?_⟩
  have hat : (apply_transform_to_shapes n).attrs = n.attrs := by
    obtain ⟨t, a, cs⟩ := n
    simp only [Node.attrs_mk] at hva ⊢
    unfold apply_transform_to_shapes
    have hsa : stage_a (Node.mk t a cs) = Node.mk t a (stage_a_list cs) := by
      rw [stage_a]
      exact group_step_invalid_attrs _ (by simpa using hva)
    rw [hsa, stage_b]
    simp [process_shape_noop none t a (Or.inr (Or.inl hva))]
  exact ⟨hat, by rw [hat]⟩

/-- Witness for C7 at the masked group of the `keep_2` regression test. -/
theorem C7_witness : (apply_transform_to_shapes g_mask).attrs = g_mask.attrs := by
  have h := C7_mask_vetoes_fold g_mask none (by decide)
  exact h.2.2.1

/-- C6 as stated is false on the code: in the `keep_2` regression test the
group with the non-uniform but decomposable transform scale(2 3) wraps a
single rect that passes every child guard, yet the push-down step leaves
the group byte-for-byte unchanged and its transform attribute in place
(the transform-validity guard rejects non-proportional scales). -/
theorem C6_counterexample :
    child_ok rect10 = true
    ∧ group_step g_scale23 = g_scale23
    ∧ getA (group_step g_scale23).attrs AId.transform
        = some (.ts ⟨2, 0, 0, 3, 0, 0⟩)
    ∧ apply_transform_to_shapes (Node.mk .svg [] [g_scale23])
        = Node.mk .svg [] [g_scale23] :=
  ⟨by decide, rfl, rfl, rfl⟩

/-- C6 amended: a group whose transform is a uniform decomposable scale
(such as scale(2 2)) wrapping a single rect that passes all child guards
has the scale pushed down onto the rect and the group's transform
attribute removed; a non-uniform scale such as scale(2 3) fails the
transform-validity guard and the group is left completely unchanged, as
the repository's own `keep_2` regression test requires. -/
theorem C6_amended_uniform_scale_pushdown (s px py w h : ℚ) :
    group_step (Node.mk .g [(.transform, .ts ⟨s, 0, 0, s, 0, 0⟩)]
        [Node.mk .rect [(.height, .len h false), (.width, .len w false),
          (.x, .len px false), (.y, .len py false)] []])
      = Node.mk .g []
          [Node.mk .rect [(.height, .len h false), (.width, .len w false),
            (.x, .len px false), (.y, .len py false),
            (.transform, .ts ⟨s, 0, 0, s, 0, 0⟩)] []]
    ∧ group_step g_scale23 = g_scale23 := by
  refine ⟨?_, rfl⟩
  have hval : Transform.valid ⟨s, 0, 0, s, 0, 0⟩ = true := by
    simp [Transform.valid]
  have hok : child_ok (Node.mk .rect [(.height, .len h false),
      (.width, .len w false), (.x, .len px false), (.y, .len py false)] [])
      = true := by
    simp [child_ok, has_valid_transform, is_valid_attrs, is_valid_coords,
      coord_ids, getA]
  unfold group_step
  rw [if_pos ⟨rfl, by simp [getA]⟩]
  simp only [Node.attrs_mk, Node.children_mk, Node.tag_mk]
  rw [show has_valid_transform [(AId.transform,
      AValue.ts ⟨s, 0, 0, s, 0, 0⟩)] = true from by
    simp [has_valid_transform, getA, hval]]
  rw [show is_valid_attrs [(AId.transform,
      AValue.ts ⟨s, 0, 0, s, 0, 0⟩)] = true from by
    simp [is_valid_attrs, getA]]
  simp only [Bool.and_self, if_true, List.all_cons, List.all_nil, hok,
    Bool.and_true, List.map_cons, List.map_nil]
  rw [show get_ts [(AId.transform, AValue.ts ⟨s, 0, 0, s, 0, 0⟩)]
      = ⟨s, 0, 0, s, 0, 0⟩ from rfl]
  simp [push_ts, getA, setA, removeA]

/-- C9: folding a pure translation translate(tx, ty) into a rect adds tx
to x and ty to y (defaulting an absent x or y to 0), leaves width and
height unchanged, removes the transform attribute, and inserts no
stroke-width attribute. -/
theorem C9_rect_pure_translation (inh : Option ℚ) (tx ty x0 y0 w h : ℚ) :
    process_shape inh .rect
        [(.height, .len h false), (.width, .len w false),
         (.x, .len x0 false), (.y, .len y0 false),
         (.transform, .ts ⟨1, 0, 0, 1, tx, ty⟩)]
      = [(.height, .len h false), (.width, .len w false),
         (.x, .len (x0 + tx) false), (.y, .len (y0 + ty) false)]
    ∧ process_shape inh .rect
        [(.height, .len h false), (.width, .len w false),
         (.transform, .ts ⟨1, 0, 0, 1, tx, ty⟩)]
      = [(.height, .len h false), (.width, .len w false),
         (.x, .len tx false), (.y, .len ty false)] := by
  have hsc : Transform.has_scale ⟨1, 0, 0, 1, tx, ty⟩ = false := by
    simp [Transform.has_scale]
  have hval : Transform.valid ⟨1, 0, 0, 1, tx, ty⟩ = true := by
    simp [Transform.valid]
  constructor
  · simp [process_shape, process, has_valid_transform, is_valid_attrs,
      is_valid_coords, coord_ids, getA, get_ts, hval, hsc, rect_func,
      transform_coords, Transform.apply, setA, removeA]
  · simp [process_shape, process, has_valid_transform, is_valid_attrs,
      is_valid_coords, coord_ids, getA, get_ts, hval, hsc, rect_func,
      transform_coords, Transform.apply, setA, removeA]

/-- C3: with the allow-bigger option unset and the cleaned buffer strictly
longer than the original input, the run ends in a rejection — the larger
cleaned buffer is never saved — and when both endpoints are concrete
files, the copy-on-error option is set and the two paths differ, the
original input bytes are copied verbatim to the output path. -/
theorem C3_safety_net_rejection (anl cpy : Bool) (input output : StreamSpec)
    (raw buf : List Nat) (hlen : raw.length < buf.length) :
    (∀ (d : StreamSpec) (bs : List Nat),
        finalize false anl cpy input output raw buf ≠ .saved d bs)
    ∧ (∀ inf outf, input = .file inf → output = .file outf → cpy = true →
        inf ≠ outf →
        finalize false anl cpy input output raw buf
          = .rejected (some (outf, raw))) := by
  constructor
  · intro d bs
    simp [finalize, hlen]
  · intro inf outf hi ho hcpy hne
    subst hi
    subst ho
    subst hcpy
    simp [finalize, hlen, on_err_copy, hne]

/-- Witness for C3: a two-byte cleaned result of a one-byte input is
rejected and the original byte is copied to the distinct output path. -/
theorem C3_witness :
    finalize false false true (.file "in.svg") (.file "out.svg")
      [60] [60, 61] = .rejected (some ("out.svg", [60])) := by
  have h := C3_safety_net_rejection false true (.file "in.svg")
    (.file "out.svg") [60] [60, 61] (by decide)
  exact h.2 "in.svg" "out.svg" rfl rfl rfl (by decide)

/-- C10: the trailing newline is appended only after the bigger-than-input
check, so a cleaned buffer of exactly the input's byte length passes the
check even with allow-bigger unset, and the bytes actually saved are one
byte longer than the input. -/
theorem C10_newline_after_size_check (cpy : Bool) (input output : StreamSpec)
    (raw buf : List Nat) (hlen : buf.length = raw.length) :
    finalize false true cpy input output raw buf
      = .saved output (buf ++ [10])
    ∧ (buf ++ [10]).length = raw.length + 1 := by
  have hnl : ¬(raw.length < buf.length) := by omega
  constructor
  · simp [finalize, hnl]
  · simp [hlen]

/-- Witness for C10: a two-byte cleaned result of a two-byte input is
saved with a trailing newline, three bytes in all. -/
theorem C10_witness :
    finalize false true false .std .std [60, 62] [61, 63]
      = .saved .std [61, 63, 10] := by
  have h := C10_newline_after_size_check false .std .std [60, 62] [61, 63] rfl
  exact h.1

theorem mp_go_isSome (step : List Nat → List Nat)
    (hmono : ∀ b, (step b).length ≤ b.length) :
    ∀ (n fuel : Nat) (buf : List Nat) (cnt : Nat), buf.length ≤ n →
      n + 1 ≤ fuel → (mp_go step fuel buf buf.length cnt).isSome = true := by
  intro n
  induction n with
  | zero =>
      intro fuel buf cnt hb hf
      cases fuel with
      | zero => omega
      | succ f =>
          have hlen0 : buf.length = 0 := Nat.le_zero.mp hb
          have hs0 : (step buf).length = 0 :=
            Nat.le_zero.mp (hlen0 ▸ hmono buf)
          simp [mp_go, hs0, hlen0]
  | succ n ih =>
      intro fuel buf cnt hb hf
      cases fuel with
      | zero => omega
      | succ f =>
          by_cases heq : (step buf).length = buf.length
          · simp [mp_go, heq]
          · have hlt : (step buf).length < buf.length :=
              lt_of_le_of_ne (hmono buf) heq
            have h1 : (step buf).length ≤ n := by omega
            have h2 : n + 1 ≤ f := by omega
            simp only [mp_go, heq, if_false]
            exact ih f (step buf) (cnt + 1) h1 h2

/-- C4 amended: provided the parse-clean-serialize step never increases
the byte length, the multipass loop reaches its stop condition within
(length of the first cycle's output) + 2 cycles; the loop stops exactly
when a cycle's length equals the previous cycle's length, with the
pre-first-cycle length initialised to 0 as in the source, so a document
on which the cleaning step is already a fixed point converges in exactly
two cycles (the second run confirming the unchanged length), not one. -/
theorem C4_amended_convergence (step : List Nat → List Nat) (raw : List Nat)
    (fuel : Nat) (hmono : ∀ b, (step b).length ≤ b.length) :
    (multipass step raw ((step raw).length + 2)).isSome = true
    ∧ (step raw = raw → raw ≠ [] → 2 ≤ fuel →
        multipass step raw fuel = some (2, raw)) := by
  constructor
  · unfold multipass
    by_cases h0 : (step raw).length = 0
    · simp [mp_go, h0]
    · have hu : mp_go step ((step raw).length + 2) raw 0 0
          = mp_go step ((step raw).length + 1) (step raw)
              (step raw).length 1 := by
        simp [mp_go, h0]
      rw [hu]
      exact mp_go_isSome step hmono (step raw).length
        ((step raw).length + 1) (step raw) 1 (Nat.le_refl _) (Nat.le_refl _)
  · intro hfix hne hf
    obtain ⟨f, rfl⟩ : ∃ f, fuel = f + 2 := ⟨fuel - 2, by omega⟩
    have hlen : ¬(raw.length = 0) := fun h => hne (List.length_eq_zero.mp h)
    unfold multipass
    simp [mp_go, hfix, hlen]

/-- C4 as stated is false on the code: with a cleaning step that has no
further matches (the identity step) on a non-empty three-byte document,
the multipass loop runs exactly two cycles, not one — `prev_size` starts
at 0, so a confirming second cycle is always needed. -/
theorem C4_counterexample :
    multipass (fun b => b) [0, 0, 0] 100 = some (2, [0, 0, 0])
    ∧ (multipass (fun b => b) [0, 0, 0] 100).map Prod.fst ≠ some 1 := by
  refine ⟨rfl, ?_⟩
  decide

/-- Witness for C4 at the identity step on a two-byte document with fuel
5: convergence in exactly two cycles. -/
theorem C4_witness : multipass (fun b => b) [7, 7] 5 = some (2, [7, 7]) := by
  have h := C4_amended_convergence (fun b => b) [7, 7] 5
    (fun b => Nat.le_refl b.length)
  exact h.2 rfl (by decide) (by decide)

end SVGCleaner
